import Mathlib

/-!
# Liberty query tool: embedding of `main_liberty.cpp`

The file embeds the functions of `src/main_liberty.cpp`
(`parseLibertyFile`, `findChildGroup`, `findSimpleNumericAttr`, `main`)
as pure Lean functions and proves properties of them.

* A `std::vector` is a `List`; a range-`for` loop over it is a recursion over
  the list, in order.
* A returned pointer to an element (`&g`) is the element itself, `nullptr`
  is `none`; the position of the element is recovered in the theorems through
  indices into `children`.
* `std::optional<double>` is `Option Double`.
* The AST types and `liberty_parse` are declared in `LibertyParser.hpp`,
  which is not part of the sources; the types are modelled from the
  specification and from the way the code uses them.
-/

namespace Liberty

/-! ## Numbers -/

/-- The C++ `double` (IEEE-754 binary64). A finite value is
`(-1)^neg * mant * 2^exp`; normal numbers have `2^52 ≤ mant < 2^53`,
zero and subnormals have `exp = -1074`. -/
inductive Double where
  | finite (neg : Bool) (mant : Nat) (exp : Int)
  | inf (neg : Bool)
  | nan
deriving DecidableEq, Repr

/-- The rational number a `double` denotes, when it is finite. -/
def Double.toRat? : Double → Option ℚ
  | .finite neg mant exp => some ((if neg then -1 else 1) * (mant : ℚ) * (2 : ℚ) ^ exp)
  | .inf _ => none
  | .nan => none

/-- Conversion of a `double` to an integer as `static_cast` does it: the
fractional part is discarded (truncation toward zero). -/
def Double.toInt? : Double → Option Int
  | .finite neg mant exp =>
      let mag : Nat := if 0 ≤ exp then mant * 2 ^ exp.toNat else mant / 2 ^ (-exp).toNat
      some (if neg then -(mag : Int) else (mag : Int))
  | .inf _ => none
  | .nan => none

/-- Smallest `int` of the platform (32-bit two's complement). -/
def INT_MIN : Int := -2147483648

/-- Largest `int` of the platform (32-bit two's complement). -/
def INT_MAX : Int := 2147483647

/-- Number of binary digits of `n`, with explicit fuel. -/
def bitLengthAux : Nat → Nat → Nat
  | 0, _ => 0
  | fuel + 1, n => if n = 0 then 0 else bitLengthAux fuel (n / 2) + 1

/-- Number of binary digits of `n` (`0` for `0`). -/
def bitLength (n : Nat) : Nat := bitLengthAux n n

/-- The conversion `static_cast<double>(v)` of an integer: the nearest
binary64 value, ties to even. Magnitudes that fit in 53 bits are only
normalised; larger ones lose their low bits by rounding. -/
def intToDouble (k : Int) : Double :=
  let n := k.natAbs
  let neg := decide (k < 0)
  if n = 0 then .finite false 0 (-1074)
  else
    let len := bitLength n
    if len ≤ 53 then .finite neg (n * 2 ^ (53 - len)) ((len : Int) - 53)
    else if 1024 < len then .inf neg
    else
      let shift := len - 53
      let q := n / 2 ^ shift
      let r := n % 2 ^ shift
      let half := 2 ^ (shift - 1)
      let q' := if half < r ∨ (r = half ∧ q % 2 = 1) then q + 1 else q
      if q' = 2 ^ 53 then
        (if len = 1024 then .inf neg else .finite neg (2 ^ 52) ((shift : Int) + 1))
      else .finite neg q' (shift : Int)

/-! ## The attribute tree -/

/-- Modelled from the spec: the value variant of a simple attribute, declared
in `LibertyParser.hpp` (missing). The code reads the alternatives `double` and
`int` with `boost::get`; the specification names the other two kinds. -/
inductive Scalar where
  | Float (d : Double)
  | Integer (i : Int)
  | Text (s : String)
  | Boolean (b : Bool)
deriving DecidableEq, Repr

/-- Modelled from the spec: `liberty::ast::SimpleAttribute` of
`LibertyParser.hpp` (missing), the statement `name : value ;`. -/
structure SimpleAttribute where
  name : String
  value : Scalar
deriving DecidableEq, Repr

/-- Modelled from the spec: the complex attribute of `LibertyParser.hpp`
(missing), the statement `name ( v1, v2, ... ) ;`. -/
structure ComplexAttribute where
  name : String
  values : List Scalar
deriving DecidableEq, Repr

mutual
/-- Modelled from the spec: `liberty::ast::GroupStatement` of
`LibertyParser.hpp` (missing): group kind, instance name and the ordered
children. -/
inductive GroupStatement where
  | mk (group_name : String) (name : String) (children : List Statement)
/-- Modelled from the spec: the statement variant stored in
`GroupStatement::children` (`LibertyParser.hpp`, missing). -/
inductive Statement where
  | group (g : GroupStatement)
  | simple (a : SimpleAttribute)
  | complex (c : ComplexAttribute)
end

/-- Field `group_name` of a group. -/
def GroupStatement.group_name : GroupStatement → String
  | .mk k _ _ => k

/-- Field `name` (the instance name) of a group. -/
def GroupStatement.name : GroupStatement → String
  | .mk _ n _ => n

/-- Field `children` of a group. -/
def GroupStatement.children : GroupStatement → List Statement
  | .mk _ _ cs => cs

/-- Modelled from the spec: `liberty::ast::Library` of `LibertyParser.hpp`
(missing); `library.get()` is the root group it wraps. -/
abbrev Library := GroupStatement

/-! ## The query functions -/

/-- The loop of `findChildGroup` (lines 46-57) over the remaining children. -/
def findChildGroupIn : List Statement → String → String → Option GroupStatement
  | [], _, _ => none
  | Statement.group g :: rest, group_name, group_instance_name =>
      if g.group_name = group_name ∧ g.name = group_instance_name then some g
      else findChildGroupIn rest group_name group_instance_name
  | Statement.simple _ :: rest, group_name, group_instance_name =>
      findChildGroupIn rest group_name group_instance_name
  | Statement.complex _ :: rest, group_name, group_instance_name =>
      findChildGroupIn rest group_name group_instance_name

/-- `findChildGroup` (lines 42-58). -/
def findChildGroup (parent : GroupStatement) (group_name group_instance_name : String) :
    Option GroupStatement :=
  findChildGroupIn parent.children group_name group_instance_name

/-- The loop of `findSimpleNumericAttr` (lines 63-76) over the remaining
children. A simple attribute of the right name whose value is neither a
`double` nor an `int` falls out of the loop body and the scan goes on. -/
def findSimpleNumericAttrIn : List Statement → String → Option Double
  | [], _ => none
  | Statement.simple simple :: rest, attr_name =>
      if simple.name ≠ attr_name then findSimpleNumericAttrIn rest attr_name
      else
        match simple.value with
        | Scalar.Float v => some v
        | Scalar.Integer v => some (intToDouble v)
        | Scalar.Text _ => findSimpleNumericAttrIn rest attr_name
        | Scalar.Boolean _ => findSimpleNumericAttrIn rest attr_name
  | Statement.group _ :: rest, attr_name => findSimpleNumericAttrIn rest attr_name
  | Statement.complex _ :: rest, attr_name => findSimpleNumericAttrIn rest attr_name

/-- `findSimpleNumericAttr` (lines 60-77). -/
def findSimpleNumericAttr (group : GroupStatement) (attr_name : String) : Option Double :=
  findSimpleNumericAttrIn group.children attr_name

/-! ## Reading the file -/

/-- `std::replace(first, last, old_value, new_value)` on a character buffer. -/
def replace (buffer : List Char) (old_value new_value : Char) : List Char :=
  buffer.map (fun c => if c = old_value then new_value else c)

/-- The buffer `parseLibertyFile` hands to `liberty_parse` (lines 27-29): the
file contents after the two `std::replace` calls. -/
def foldedBuffer (contents : List Char) : List Char :=
  replace (replace contents '\n' ' ') '\\' ' '

/-- `parseLibertyFile` (lines 15-40). `file` is the contents of the file at
`lib_path`, `none` when it cannot be opened; `liberty_parse` is the parser of
`LibertyParser.hpp`, of which only the success flag and the library it fills
are used. The result is the library, or the error message. -/
def parseLibertyFile (liberty_parse : List Char → Option Library)
    (file : Option (List Char)) (lib_path : String) : Except String Library :=
  match file with
  | none => .error ("Cannot open liberty file: " ++ lib_path)
  | some contents =>
      match liberty_parse (foldedBuffer contents) with
      | none => .error ("liberty_parse failed for file: " ++ lib_path)
      | some library => .ok library

/-! ## The program -/

/-- What `main` prints on standard output when it succeeds. -/
structure Report where
  lib_file : String
  cell : String
  pin : String
  capacitance : Double
  rise_capacitance : Option Double
  fall_capacitance : Option Double
deriving DecidableEq, Repr

/-- `main` (lines 81-140). `args` is `argv[1..]`, `readFile` the file system.
An error is the exit code with the line written to standard error; success is
exit code `0` with the report. -/
def main (liberty_parse : List Char → Option Library)
    (readFile : String → Option (List Char)) (args : List String) :
    Except (Nat × String) Report :=
  let lib_path := args.getD 0 "/Relocate_Sizing/LIB/asap7sc7p5t_AO_LVT_TT_nldm_211120.lib"
  let cell_name := args.getD 1 "A2O1A1Ixp33_ASAP7_75t_L"
  let pin_name := args.getD 2 "A1"
  match parseLibertyFile liberty_parse (readFile lib_path) lib_path with
  | .error error => .error (1, "[ERROR] " ++ error)
  | .ok library =>
      let root := library
      if root.group_name ≠ "library" then
        .error (2, "[ERROR] Parsed root is not a library group.")
      else
        match findChildGroup root "cell" cell_name with
        | none => .error (3, "[ERROR] Cell not found: " ++ cell_name)
        | some cell =>
            match findChildGroup cell "pin" pin_name with
            | none =>
                .error (4, "[ERROR] Pin not found in cell " ++ cell_name ++ ": " ++ pin_name)
            | some pin =>
                match findSimpleNumericAttr pin "capacitance" with
                | none =>
                    .error (5, "[ERROR] Attribute 'capacitance' not found on "
                      ++ cell_name ++ "/" ++ pin_name)
                | some cap =>
                    .ok { lib_file := lib_path, cell := cell_name, pin := pin_name,
                          capacitance := cap,
                          rise_capacitance := findSimpleNumericAttr pin "rise_capacitance",
                          fall_capacitance := findSimpleNumericAttr pin "fall_capacitance" }

/-! ## Example trees -/

/-- Two sibling cells of the same kind and name, told apart by their contents. -/
def dupFirst : GroupStatement :=
  .mk "cell" "X" [.simple ⟨"area", .Integer 1⟩]

/-- The later of the two sibling cells. -/
def dupSecond : GroupStatement :=
  .mk "cell" "X" [.simple ⟨"area", .Integer 2⟩]

/-- A library holding the two sibling cells after a simple attribute. -/
def dupLibrary : GroupStatement :=
  .mk "library" "L" [.simple ⟨"date", .Text "today"⟩, .group dupFirst, .group dupSecond]


/-- The pin of the end-to-end scenario of the specification:
`pin (A1) { capacitance : 1.25 ; rise_capacitance : 1.4 ; }`. -/
def scenarioPin : GroupStatement :=
  .mk "pin" "A1"
    [.simple ⟨"capacitance", .Float (.finite false 5629499534213120 (-52))⟩,
     .simple ⟨"rise_capacitance", .Float (.finite false 6305039478318694 (-52))⟩]

/-- The cell of the end-to-end scenario: `cell (C) { pin (A1) { ... } }`. -/
def scenarioCell : GroupStatement :=
  .mk "cell" "C" [.group scenarioPin]

/-- The tree of the end-to-end scenario:
`library (L) { cell (C) { pin (A1) { ... } } }`. -/
def scenarioLibrary : GroupStatement :=
  .mk "library" "L" [.group scenarioCell]

/-- A pin whose first `capacitance` is a text and whose second is a number. -/
def shadowedPin : GroupStatement :=
  .mk "pin" "A1"
    [.simple ⟨"capacitance", .Text "foo"⟩,
     .simple ⟨"capacitance", .Integer 44⟩]

/-- A pin in which the name `capacitance` is carried by a complex attribute
and by a nested group only. -/
def complexOnlyPin : GroupStatement :=
  .mk "pin" "A1"
    [.complex ⟨"capacitance", [.Integer 1, .Integer 2]⟩,
     .group (.mk "capacitance" "capacitance" [.simple ⟨"capacitance", .Integer 3⟩]),
     .simple ⟨"direction", .Text "input"⟩]

/-! ## Vocabulary of the statements -/

/-- The number a scalar stands for in a numeric query: a `Float` as it is, an
`Integer` converted; `Text` and `Boolean` stand for none. -/
def Scalar.asNumber : Scalar → Option Double
  | .Float v => some v
  | .Integer v => some (intToDouble v)
  | .Text _ => none
  | .Boolean _ => none

/-- The number a statement contributes to a query for `n`: that of a simple
attribute named `n`, nothing for any other statement. -/
def Statement.numberNamed (n : String) : Statement → Option Double
  | .simple a => if a.name = n then a.value.asNumber else none
  | .group _ => none
  | .complex _ => none

/-- Whether a statement is a simple attribute. -/
def Statement.isSimple : Statement → Bool
  | .simple _ => true
  | .group _ => false
  | .complex _ => false

/-- The group with every child that is not a simple attribute removed. -/
def GroupStatement.onlySimple (g : GroupStatement) : GroupStatement :=
  .mk g.group_name g.name (g.children.filter Statement.isSimple)

/-- A pin whose capacitance is written as the integer `44`. -/
def integerPin : GroupStatement :=
  .mk "pin" "A1" [.simple ⟨"capacitance", .Integer 44⟩]

/-! ## The preprocessing step as the specification words it -/

/-- Follows the spec's words (section 4.3), not the code: `resolve_path` folds
repeated `find_child_group` calls over the segments and is `none` from the
first missing segment on. -/
def resolve_path (root : GroupStatement) : List (String × String) → Option GroupStatement
  | [] => some root
  | (kind, name) :: rest =>
      match findChildGroup root kind name with
      | none => none
      | some g => resolve_path g rest

/-- A stand-in parser that yields the scenario tree whatever the buffer. -/
def scenarioParse : List Char → Option Library :=
  fun _ => some scenarioLibrary

/-- A file system in which every path opens as an empty file. -/
def emptyFiles : String → Option (List Char) :=
  fun _ => some []

/-! ## The grammar of section 4.2

`liberty_parse` is declared in `LibertyParser.hpp`, which is not part of the
sources. What follows is the grammar of the specification, over tokens. The
lexical layer (white space, comments, the reading of numeric literals) is left
to the implementation by the specification and is a parameter here, and so is
the way the arguments of a group give its instance name. The lexical layer is
a total function: what it cannot read becomes the token `bad`, which no
production accepts.

The grammar fixes no keyword (`group_kind` is any identifier), so the parser
accepts a root group of any kind. That the root is a `library` group is part
of what makes an input well formed; section 6 lists a root that is not a
`library` as a failure of its own, next to a parse failure, and `main` tests
it after the parse (lines 100-104). -/

/-- Modelled from the spec: the lexical units of the grammar of section 4.2
(`liberty_parse` and its lexer are in `LibertyParser.hpp`, missing):
identifiers, numeric literals without and with a decimal point or exponent,
quoted strings, and the punctuation of the productions; `bad` is a lexeme
that is none of these (an unterminated quoted string, a malformed value). -/
inductive Token where
  | ident (s : String)
  | intLit (i : Int)
  | floatLit (d : Double)
  | strLit (s : String)
  | lparen
  | rparen
  | lbrace
  | rbrace
  | colon
  | semi
  | comma
  | bad
deriving DecidableEq, Repr

/-- Modelled from the spec: the production
`Value ::= NumericLiteral | StringLiteral | BareIdentifier` with the
disambiguation rules of section 4.2 (the parser is missing from the sources):
a literal without decimal point or exponent is an `Integer`, one with either a
`Float`, quoted text a `Text`, the bare identifiers `true` and `false` a
`Boolean`, any other bare identifier a `Text`. -/
def valueOf : Token → Option Scalar
  | .intLit i => some (.Integer i)
  | .floatLit d => some (.Float d)
  | .strLit s => some (.Text s)
  | .ident s =>
      if s = "true" then some (.Boolean true)
      else if s = "false" then some (.Boolean false)
      else some (.Text s)
  | .lparen => none
  | .rparen => none
  | .lbrace => none
  | .rbrace => none
  | .colon => none
  | .semi => none
  | .comma => none
  | .bad => none

/-- Modelled from the spec: recogniser for `ArgList` in the missing
`liberty_parse`; it reads values separated by commas and returns them with
the tokens that follow. -/
def parseArgList : List Token → Option (List Scalar × List Token)
  | [] => none
  | [v] =>
      match valueOf v with
      | some sc => some ([sc], [])
      | none => none
  | v :: w :: rest =>
      match valueOf v with
      | none => none
      | some sc =>
          if w = Token.comma then
            match parseArgList rest with
            | some (vs, remaining) => some (sc :: vs, remaining)
            | none => none
          else some ([sc], w :: rest)

/-- Modelled from the spec: recogniser for `ArgList? ')'` in the missing
`liberty_parse`, entered after the opening parenthesis. -/
def parseArgs (toks : List Token) : Option (List Scalar × List Token) :=
  match toks with
  | Token.rparen :: rest => some ([], rest)
  | _ =>
      match parseArgList toks with
      | some (vs, Token.rparen :: rest) => some (vs, rest)
      | _ => none

/-- Modelled from the spec: recogniser for `Statement* '}'` in the missing
`liberty_parse`. After `Identifier '(' ArgList? ')'` it looks at the next
token: `;` ends a complex attribute, `{` opens a nested group. Any
unexpected token fails the parse. `fuel` bounds the number of statements
and closing braces read. -/
def parseStatements (instanceName : List Scalar → String) :
    Nat → List Token → Option (List Statement × List Token)
  | 0, _ => none
  | fuel + 1, toks =>
      match toks with
      | Token.rbrace :: rest => some ([], rest)
      | Token.ident n :: Token.colon :: v :: Token.semi :: rest =>
          match valueOf v with
          | none => none
          | some sc =>
              match parseStatements instanceName fuel rest with
              | some (sts, remaining) => some (Statement.simple ⟨n, sc⟩ :: sts, remaining)
              | none => none
      | Token.ident n :: Token.lparen :: rest =>
          match parseArgs rest with
          | some (vs, Token.semi :: rest1) =>
              match parseStatements instanceName fuel rest1 with
              | some (sts, remaining) => some (Statement.complex ⟨n, vs⟩ :: sts, remaining)
              | none => none
          | some (vs, Token.lbrace :: rest1) =>
              match parseStatements instanceName fuel rest1 with
              | some (cs, rest2) =>
                  match parseStatements instanceName fuel rest2 with
                  | some (sts, remaining) =>
                      some (Statement.group (GroupStatement.mk n (instanceName vs) cs) :: sts,
                        remaining)
                  | none => none
              | none => none
          | _ => none
      | _ => none

/-- Modelled from the spec: the parse of a token stream as `Library ::= Group`
in the missing `liberty_parse`. The root is a group of any kind, the kind
being any identifier; the whole input must be consumed, and there is no
partial result. The kind of the root is not tested here: it is the test of
`main` after the parse (lines 100-104), the failure that section 6 lists
apart from a parse failure. -/
def parseLibrary (instanceName : List Scalar → String) (toks : List Token) : Option Library :=
  match toks with
  | Token.ident k :: Token.lparen :: rest =>
      match parseArgs rest with
      | some (vs, Token.lbrace :: body) =>
          match parseStatements instanceName body.length body with
          | some (cs, []) => some (GroupStatement.mk k (instanceName vs) cs)
          | _ => none
      | _ => none
  | _ => none

/-- Modelled from the spec: `liberty_parse` of `LibertyParser.hpp` (missing),
the parser of section 4.2 on the preprocessed character stream. `tokenize` is
the lexical layer, `instanceName` the instance name a group takes from its
arguments; `none` is a parse error. -/
def liberty_parse (tokenize : List Char → List Token)
    (instanceName : List Scalar → String) (buffer : List Char) : Option Library :=
  parseLibrary instanceName (tokenize buffer)

/-- With enough fuel, a number has at most `b` binary digits exactly when it is below `2^b`. -/
theorem bitLengthAux_le_iff (fuel : Nat) : ∀ (n b : Nat), n ≤ fuel →
    (bitLengthAux fuel n ≤ b ↔ n < 2 ^ b) := by
  induction fuel with
  | zero =>
    intro n b hn
    have : n = 0 := by omega
    subst this
    simp [bitLengthAux]
  | succ fuel ih =>
    intro n b hn
    by_cases h0 : n = 0
    · subst h0
      simp [bitLengthAux]
    · simp only [bitLengthAux, if_neg h0]
      cases b with
      | zero =>
        simp only [pow_zero, Nat.lt_one_iff]
        constructor
        · intro h; omega
        · intro h; exact absurd h h0
      | succ b =>
        have hhalf : n / 2 ≤ fuel := by omega
        rw [Nat.add_le_add_iff_right, ih (n / 2) b hhalf, pow_succ]
        omega

/-- A number has at most `b` binary digits exactly when it is below `2^b`. -/
theorem bitLength_le_iff (n b : Nat) : bitLength n ≤ b ↔ n < 2 ^ b :=
  bitLengthAux_le_iff n n b (Nat.le_refl n)

/-- Integers of magnitude below `2^53` are converted without rounding. -/
theorem intToDouble_exact (k : Int) (h : k.natAbs < 2 ^ 53) :
    (intToDouble k).toRat? = some (k : ℚ) ∧ (intToDouble k).toInt? = some k := by
  by_cases h0 : k.natAbs = 0
  · have hk : k = 0 := Int.natAbs_eq_zero.1 h0
    subst hk
    constructor
    · simp only [intToDouble, Double.toRat?, Int.natAbs_zero, if_true]
      simp
    · simp only [intToDouble, Double.toInt?, Int.natAbs_zero, if_true]
      simp only [Nat.zero_mul, Nat.zero_div, ite_self, Bool.false_eq_true, if_false, Nat.cast_zero]
  · have hlen : bitLength k.natAbs ≤ 53 := (bitLength_le_iff _ _).2 h
    have hdef : intToDouble k =
        Double.finite (decide (k < 0)) (k.natAbs * 2 ^ (53 - bitLength k.natAbs))
          ((bitLength k.natAbs : Int) - 53) := by
      simp only [intToDouble, if_neg h0, if_pos hlen]
    obtain ⟨d, hd⟩ : ∃ d : Nat, d = 53 - bitLength k.natAbs := ⟨_, rfl⟩
    have hexp : (bitLength k.natAbs : Int) - 53 = -(d : Int) := by omega
    rw [hdef, ← hd, hexp]
    have hsign : (if decide (k < 0) = true then -(k.natAbs : Int) else (k.natAbs : Int)) = k := by
      by_cases hneg : k < 0
      · simp only [hneg, decide_True, if_true]; omega
      · simp only [hneg, decide_False]; simp; omega
    constructor
    · simp only [Double.toRat?, Option.some.injEq]
      have h2 : ((2 : ℚ) ^ d) ≠ 0 := pow_ne_zero _ (by norm_num)
      have hq : ((if decide (k < 0) = true then (-1 : ℚ) else 1) * (k.natAbs : ℚ)) = (k : ℚ) := by
        by_cases hneg : k < 0
        · have hq0 : (k : ℚ) < 0 := by exact_mod_cast hneg
          simp only [hneg, decide_True, if_true, Nat.cast_natAbs, Int.cast_abs, abs_of_neg hq0]
          ring
        · have hq0 : (0 : ℚ) ≤ (k : ℚ) := by exact_mod_cast (not_lt.1 hneg)
          simp only [hneg, decide_False, Nat.cast_natAbs, Int.cast_abs, abs_of_nonneg hq0]
          simp
      rw [zpow_neg, zpow_natCast]
      push_cast
      rw [← hq]
      field_simp
    · simp only [Double.toInt?, Option.some.injEq]
      have hmag : (if (0 : Int) ≤ -(d : Int) then k.natAbs * 2 ^ d * 2 ^ (-(d : Int)).toNat
          else k.natAbs * 2 ^ d / 2 ^ (- -(d : Int)).toNat) = k.natAbs := by
        by_cases hd0 : d = 0
        · subst hd0; simp
        · have : ¬ (0 : Int) ≤ -(d : Int) := by omega
          rw [if_neg this]
          simp only [neg_neg, Int.toNat_ofNat]
          exact Nat.mul_div_cancel _ (Nat.two_pow_pos d)
      rw [hmag]
      exact hsign

/-! ## Properties of `findChildGroup` -/

/-- The loop of `findChildGroup` finds nothing exactly when no nested group among the children matches. -/
theorem findChildGroupIn_eq_none_iff (cs : List Statement) (k n : String) :
    findChildGroupIn cs k n = none ↔
      ∀ g, Statement.group g ∈ cs → ¬(g.group_name = k ∧ g.name = n) := by
  induction cs with
  | nil => simp [findChildGroupIn]
  | cons c rest ih =>
    cases c with
    | group g0 =>
      by_cases h : g0.group_name = k ∧ g0.name = n
      · simp only [findChildGroupIn, if_pos h]
        constructor
        · intro hc; cases hc
        · intro hall; exact absurd h (hall g0 (List.mem_cons_self _ _))
      · simp only [findChildGroupIn, if_neg h, ih]
        constructor
        · intro hall g hg
          rcases List.mem_cons.1 hg with hg | hg
          · cases hg; exact h
          · exact hall g hg
        · intro hall g hg
          exact hall g (List.mem_cons_of_mem _ hg)
    | simple a => simp [findChildGroupIn, ih]
    | complex c => simp [findChildGroupIn, ih]

/-- A group returned by the loop of `findChildGroup` sits at an index before which no nested group matches. -/
theorem findChildGroupIn_eq_some (cs : List Statement) (k n : String) (g : GroupStatement)
    (h : findChildGroupIn cs k n = some g) :
    ∃ i, cs[i]? = some (Statement.group g) ∧ g.group_name = k ∧ g.name = n ∧
      ∀ (j : Nat) (g' : GroupStatement), j < i → cs[j]? = some (Statement.group g') →
        ¬(g'.group_name = k ∧ g'.name = n) := by
  induction cs with
  | nil => simp [findChildGroupIn] at h
  | cons c rest ih =>
    have step : findChildGroupIn rest k n = some g →
        (∀ g', c = Statement.group g' → ¬(g'.group_name = k ∧ g'.name = n)) →
        ∃ i, (c :: rest)[i]? = some (Statement.group g) ∧ g.group_name = k ∧ g.name = n ∧
          ∀ (j : Nat) (g' : GroupStatement), j < i → (c :: rest)[j]? = some (Statement.group g') →
            ¬(g'.group_name = k ∧ g'.name = n) := by
      intro hr hc
      obtain ⟨i, hi, hk, hn, hmin⟩ := ih hr
      refine ⟨i + 1, by simpa using hi, hk, hn, ?_⟩
      intro j g' hj hg'
      cases j with
      | zero =>
        simp only [List.getElem?_cons_zero, Option.some.injEq] at hg'
        exact hc g' hg'
      | succ j =>
        simp only [List.getElem?_cons_succ] at hg'
        exact hmin j g' (by omega) hg'
    cases c with
    | group g0 =>
      by_cases hm : g0.group_name = k ∧ g0.name = n
      · simp only [findChildGroupIn, if_pos hm, Option.some.injEq] at h
        subst h
        exact ⟨0, by simp, hm.1, hm.2, by intro j g' hj; omega⟩
      · simp only [findChildGroupIn, if_neg hm] at h
        exact step h (by intro g' hg'; cases hg'; exact hm)
    | simple a =>
      simp only [findChildGroupIn] at h
      exact step h (by intro g' hg'; cases hg')
    | complex c =>
      simp only [findChildGroupIn] at h
      exact step h (by intro g' hg'; cases hg')

/-- C1: when some direct child of `parent` is a nested group of kind `k` and
instance name `n`, `findChildGroup parent k n` returns the matching group of
smallest index in `parent.children`: no child before the returned one matches,
so of two identical siblings the earlier is returned. -/
theorem findChildGroup_returns_first_match (parent : GroupStatement) (k n : String)
    (h : ∃ g, Statement.group g ∈ parent.children ∧ g.group_name = k ∧ g.name = n) :
    ∃ i g, parent.children[i]? = some (Statement.group g) ∧ g.group_name = k ∧ g.name = n ∧
      (∀ (j : Nat) (g' : GroupStatement), j < i → parent.children[j]? = some (Statement.group g') →
        ¬(g'.group_name = k ∧ g'.name = n)) ∧
      findChildGroup parent k n = some g := by
  obtain ⟨g0, hmem, hk0, hn0⟩ := h
  cases hres : findChildGroup parent k n with
  | none =>
    have := (findChildGroupIn_eq_none_iff parent.children k n).1 hres g0 hmem
    exact absurd ⟨hk0, hn0⟩ this
  | some g =>
    obtain ⟨i, hi, hk, hn, hmin⟩ := findChildGroupIn_eq_some parent.children k n g hres
    exact ⟨i, g, hi, hk, hn, hmin, rfl⟩

/-- Witness for C1 on a library with two sibling cells `X`: the earlier one is returned. -/
theorem findChildGroup_returns_first_match_witness :
    (∃ g, Statement.group g ∈ dupLibrary.children ∧ g.group_name = "cell" ∧ g.name = "X") ∧
    (∃ i g, dupLibrary.children[i]? = some (Statement.group g) ∧
      g.group_name = "cell" ∧ g.name = "X" ∧
      (∀ (j : Nat) (g' : GroupStatement), j < i → dupLibrary.children[j]? = some (Statement.group g') →
        ¬(g'.group_name = "cell" ∧ g'.name = "X")) ∧
      findChildGroup dupLibrary "cell" "X" = some g) ∧
    findChildGroup dupLibrary "cell" "X" = some dupFirst ∧ dupFirst ≠ dupSecond :=
  ⟨⟨dupSecond, by simp [dupLibrary, GroupStatement.children], rfl, rfl⟩,
   findChildGroup_returns_first_match dupLibrary "cell" "X"
     ⟨dupSecond, by simp [dupLibrary, GroupStatement.children], rfl, rfl⟩,
   rfl, by simp [dupFirst, dupSecond]⟩

/-- C2: `findChildGroup` is a shallow search. It returns `none` exactly when
no direct child of `parent` is a nested group of kind `k` and name `n`; a group
it returns is a direct child that matches; on the scenario tree the pin `A1`,
which lies inside the cell, is not found from the library root (but is found
from the cell). -/
theorem findChildGroup_shallow (parent : GroupStatement) (k n : String) :
    (findChildGroup parent k n = none ↔
      ∀ g, Statement.group g ∈ parent.children → ¬(g.group_name = k ∧ g.name = n)) ∧
    (∀ g, findChildGroup parent k n = some g →
      Statement.group g ∈ parent.children ∧ g.group_name = k ∧ g.name = n) ∧
    (findChildGroup scenarioLibrary "pin" "A1" = none ∧
      findChildGroup scenarioCell "pin" "A1" = some scenarioPin ∧
      Statement.group scenarioCell ∈ scenarioLibrary.children) := by
  refine ⟨findChildGroupIn_eq_none_iff parent.children k n, ?_, rfl, rfl, ?_⟩
  · intro g hg
    obtain ⟨i, hi, hk, hn, -⟩ := findChildGroupIn_eq_some parent.children k n g hg
    exact ⟨List.getElem?_mem hi, hk, hn⟩
  · simp [scenarioLibrary, GroupStatement.children]

/-! ## Properties of `findSimpleNumericAttr` -/

/-- A scalar stands for no number exactly when it is a `Text` or a `Boolean`. -/
theorem asNumber_eq_none_iff (s : Scalar) :
    s.asNumber = none ↔ (∃ t, s = Scalar.Text t) ∨ (∃ b, s = Scalar.Boolean b) := by
  cases s <;> simp [Scalar.asNumber]

/-- A scalar stands for `v` exactly when it is `Float v` or an `Integer` converting to `v`. -/
theorem asNumber_eq_some_iff (s : Scalar) (v : Double) :
    s.asNumber = some v ↔ s = Scalar.Float v ∨ (∃ i, s = Scalar.Integer i ∧ v = intToDouble i) := by
  cases s <;> simp [Scalar.asNumber, eq_comm]

/-- The loop is a first-hit search for the number contributed by a statement. -/
theorem findSimpleNumericAttrIn_eq_findSome (cs : List Statement) (n : String) :
    findSimpleNumericAttrIn cs n = cs.findSome? (Statement.numberNamed n) := by
  induction cs with
  | nil => rfl
  | cons c rest ih =>
    cases c with
    | group g => simp [findSimpleNumericAttrIn, List.findSome?, Statement.numberNamed, ih]
    | complex c => simp [findSimpleNumericAttrIn, List.findSome?, Statement.numberNamed, ih]
    | simple a =>
      obtain ⟨nm, val⟩ := a
      by_cases hn : nm = n
      · cases val <;>
          simp [findSimpleNumericAttrIn, List.findSome?, Statement.numberNamed, hn, ih,
            Scalar.asNumber]
      · simp [findSimpleNumericAttrIn, List.findSome?, Statement.numberNamed, hn, ih]

/-- A statement contributes no number unless it is a simple attribute of the name with a numeric value. -/
theorem numberNamed_eq_none_iff (n : String) (s : Statement) :
    Statement.numberNamed n s = none ↔
      ∀ a, s = Statement.simple a → a.name = n → a.value.asNumber = none := by
  cases s with
  | group g => simp [Statement.numberNamed]
  | complex c => simp [Statement.numberNamed]
  | simple a =>
    by_cases hn : a.name = n
    · simp [Statement.numberNamed, hn]
    · simp [Statement.numberNamed, hn]

/-- The scan finds nothing exactly when no simple attribute of the name holds a number. -/
theorem findSimpleNumericAttrIn_eq_none_iff (cs : List Statement) (n : String) :
    findSimpleNumericAttrIn cs n = none ↔
      ∀ a, Statement.simple a ∈ cs → a.name = n → a.value.asNumber = none := by
  rw [findSimpleNumericAttrIn_eq_findSome, List.findSome?_eq_none_iff]
  constructor
  · intro h a ha hn
    exact (numberNamed_eq_none_iff n _).1 (h _ ha) a rfl hn
  · intro h s hs
    refine (numberNamed_eq_none_iff n s).2 ?_
    intro a hsa hn
    subst hsa
    exact h a hs hn

/-- The scan of a concatenation is the scan of the first part, else that of the second. -/
theorem findSimpleNumericAttrIn_append (pre post : List Statement) (n : String) :
    findSimpleNumericAttrIn (pre ++ post) n =
      (findSimpleNumericAttrIn pre n).or (findSimpleNumericAttrIn post n) := by
  simp only [findSimpleNumericAttrIn_eq_findSome, List.findSome?_append]

/-- The scan returns `v` exactly when the first numeric simple attribute of the name stands for `v`. -/
theorem findSimpleNumericAttrIn_eq_some_iff (cs : List Statement) (n : String) (v : Double) :
    findSimpleNumericAttrIn cs n = some v ↔
      ∃ pre a post, cs = pre ++ Statement.simple a :: post ∧ a.name = n ∧
        a.value.asNumber = some v ∧
        ∀ b, Statement.simple b ∈ pre → b.name = n → b.value.asNumber = none := by
  constructor
  · intro h
    rw [findSimpleNumericAttrIn_eq_findSome, List.findSome?_eq_some_iff] at h
    obtain ⟨pre, s, post, hcs, hs, hpre⟩ := h
    cases s with
    | group g => simp [Statement.numberNamed] at hs
    | complex c => simp [Statement.numberNamed] at hs
    | simple a =>
      by_cases hn : a.name = n
      · refine ⟨pre, a, post, hcs, hn, by simpa [Statement.numberNamed, hn] using hs, ?_⟩
        intro b hb hbn
        exact (numberNamed_eq_none_iff n _).1 (hpre _ hb) b rfl hbn
      · simp [Statement.numberNamed, hn] at hs
  · rintro ⟨pre, a, post, hcs, hn, hv, hpre⟩
    subst hcs
    rw [findSimpleNumericAttrIn_append,
      (findSimpleNumericAttrIn_eq_none_iff pre n).2 hpre]
    simp [findSimpleNumericAttrIn_eq_findSome, List.findSome?, Statement.numberNamed, hn, hv]

/-- C10: `findSimpleNumericAttr` returns the first numeric value stored under
the name. The result is `some v` exactly when the children split around a
simple attribute named `n` that holds `Float v`, or `Integer i` with `v` the
conversion of `i`, every simple attribute named `n` before it holding a `Text`
or a `Boolean`; the result is `none` exactly when every simple attribute named
`n` holds a `Text` or a `Boolean` (in particular when there is none). -/
theorem findSimpleNumericAttr_first_numeric (group : GroupStatement) (n : String) :
    (∀ v, findSimpleNumericAttr group n = some v ↔
      ∃ pre a post, group.children = pre ++ Statement.simple a :: post ∧ a.name = n ∧
        (a.value = Scalar.Float v ∨ ∃ i, a.value = Scalar.Integer i ∧ v = intToDouble i) ∧
        ∀ b, Statement.simple b ∈ pre → b.name = n →
          (∃ t, b.value = Scalar.Text t) ∨ (∃ t, b.value = Scalar.Boolean t)) ∧
    (findSimpleNumericAttr group n = none ↔
      ∀ a, Statement.simple a ∈ group.children → a.name = n →
        (∃ t, a.value = Scalar.Text t) ∨ (∃ t, a.value = Scalar.Boolean t)) := by
  constructor
  · intro v
    unfold findSimpleNumericAttr
    rw [findSimpleNumericAttrIn_eq_some_iff]
    simp only [asNumber_eq_some_iff, asNumber_eq_none_iff]
  · unfold findSimpleNumericAttr
    rw [findSimpleNumericAttrIn_eq_none_iff]
    simp only [asNumber_eq_none_iff]

/-- The scan ignores every statement that is not a simple attribute. -/
theorem findSimpleNumericAttrIn_filter_isSimple (cs : List Statement) (n : String) :
    findSimpleNumericAttrIn (cs.filter Statement.isSimple) n = findSimpleNumericAttrIn cs n := by
  simp only [findSimpleNumericAttrIn_eq_findSome]
  induction cs with
  | nil => rfl
  | cons c rest ih =>
    cases c with
    | group g => simpa [List.filter, Statement.isSimple, List.findSome?, Statement.numberNamed] using ih
    | complex c => simpa [List.filter, Statement.isSimple, List.findSome?, Statement.numberNamed] using ih
    | simple a =>
      simp only [List.filter, Statement.isSimple, List.findSome?, ih]

/-- C5: only simple attributes are considered. The query on a group equals the
query on the group with every complex attribute and nested group removed; a
group none of whose simple attributes is named `n` yields `none`, whatever
complex attributes and nested groups carry that name, as in the example pin. -/
theorem findSimpleNumericAttr_only_simple (g : GroupStatement) (n : String) :
    findSimpleNumericAttr g n = findSimpleNumericAttr g.onlySimple n ∧
    ((∀ a, Statement.simple a ∈ g.children → a.name ≠ n) → findSimpleNumericAttr g n = none) ∧
    findSimpleNumericAttr complexOnlyPin "capacitance" = none := by
  refine ⟨?_, ?_, rfl⟩
  · simp only [findSimpleNumericAttr, GroupStatement.onlySimple, GroupStatement.children,
      findSimpleNumericAttrIn_filter_isSimple]
  · intro h
    refine (findSimpleNumericAttrIn_eq_none_iff g.children n).2 ?_
    intro a ha hn
    exact absurd hn (h a ha)

/-- C3, refuted as stated: in `shadowedPin` the first simple attribute named
`capacitance` holds the text `foo`, yet the numeric query does not return
`none`: it returns the later `Integer 44`, converted. -/
theorem findSimpleNumericAttr_first_match_not_decisive :
    shadowedPin.children =
        [] ++ Statement.simple ⟨"capacitance", Scalar.Text "foo"⟩ ::
          [Statement.simple ⟨"capacitance", Scalar.Integer 44⟩] ∧
    findSimpleNumericAttr shadowedPin "capacitance" = some (intToDouble 44) ∧
    findSimpleNumericAttr shadowedPin "capacitance" ≠ none := by
  refine ⟨rfl, rfl, ?_⟩
  intro h
  have h2 : findSimpleNumericAttr shadowedPin "capacitance" = some (intToDouble 44) := rfl
  rw [h2] at h
  cases h

/-- C3, amended: a first simple attribute named `n` that holds a `Text` or a
`Boolean` is skipped. The query then returns what the scan of the children
after it returns: `none` exactly when none of the later simple attributes
named `n` holds a number. -/
theorem findSimpleNumericAttr_skips_non_numeric (group : GroupStatement) (n : String)
    (pre post : List Statement) (a : SimpleAttribute)
    (hsplit : group.children = pre ++ Statement.simple a :: post)
    (hfirst : ∀ b, Statement.simple b ∈ pre → b.name ≠ n)
    (hname : a.name = n)
    (hval : (∃ t, a.value = Scalar.Text t) ∨ (∃ t, a.value = Scalar.Boolean t)) :
    findSimpleNumericAttr group n = findSimpleNumericAttrIn post n ∧
    (findSimpleNumericAttr group n = none ↔
      ∀ b, Statement.simple b ∈ post → b.name = n →
        (∃ t, b.value = Scalar.Text t) ∨ (∃ t, b.value = Scalar.Boolean t)) := by
  have hpre : findSimpleNumericAttrIn pre n = none :=
    (findSimpleNumericAttrIn_eq_none_iff pre n).2 (fun b hb hn => absurd hn (hfirst b hb))
  have hhead : Statement.numberNamed n (Statement.simple a) = none := by
    simp [Statement.numberNamed, hname, (asNumber_eq_none_iff a.value).2 hval]
  have hmain : findSimpleNumericAttr group n = findSimpleNumericAttrIn post n := by
    unfold findSimpleNumericAttr
    rw [hsplit, findSimpleNumericAttrIn_append, hpre]
    simp [findSimpleNumericAttrIn_eq_findSome, List.findSome?, hhead]
  refine ⟨hmain, ?_⟩
  rw [hmain, findSimpleNumericAttrIn_eq_none_iff]
  simp only [asNumber_eq_none_iff]

/-- Witness for the amended C3 on `shadowedPin`, whose first `capacitance` is a text. -/
theorem findSimpleNumericAttr_skips_non_numeric_witness :
    findSimpleNumericAttr shadowedPin "capacitance" =
        findSimpleNumericAttrIn [Statement.simple ⟨"capacitance", Scalar.Integer 44⟩]
          "capacitance" ∧
    (findSimpleNumericAttr shadowedPin "capacitance" = none ↔
      ∀ b, Statement.simple b ∈ [Statement.simple ⟨"capacitance", Scalar.Integer 44⟩] →
        b.name = "capacitance" →
        (∃ t, b.value = Scalar.Text t) ∨ (∃ t, b.value = Scalar.Boolean t)) :=
  findSimpleNumericAttr_skips_non_numeric shadowedPin "capacitance" []
    [Statement.simple ⟨"capacitance", Scalar.Integer 44⟩] ⟨"capacitance", Scalar.Text "foo"⟩
    rfl (by intro b hb; cases hb) rfl (Or.inl ⟨"foo", rfl⟩)

/-- Beyond 53 bits the conversion rounds: `2^53 + 1` becomes `2^53`. -/
theorem intToDouble_rounds_above_53_bits :
    (intToDouble (2 ^ 53 + 1)).toInt? = some (2 ^ 53) := by
  decide

/-- C4: integer-to-float widening is lossless. When the first simple attribute
named `n` holds `Integer k`, with `k` in the range of a C++ `int`, the query
returns a `double` whose value is exactly `k`; converting it back to an
integer gives `k`. -/
theorem findSimpleNumericAttr_integer_widening_lossless (group : GroupStatement) (n : String)
    (pre post : List Statement) (a : SimpleAttribute) (k : Int)
    (hsplit : group.children = pre ++ Statement.simple a :: post)
    (hfirst : ∀ b, Statement.simple b ∈ pre → b.name ≠ n)
    (hname : a.name = n) (hval : a.value = Scalar.Integer k)
    (hlo : INT_MIN ≤ k) (hhi : k ≤ INT_MAX) :
    ∃ x, findSimpleNumericAttr group n = some x ∧
      x.toRat? = some (k : ℚ) ∧ x.toInt? = some k := by
  have hk : k.natAbs < 2 ^ 53 := by
    simp only [INT_MIN, INT_MAX] at hlo hhi
    omega
  refine ⟨intToDouble k, ?_, intToDouble_exact k hk⟩
  refine (findSimpleNumericAttrIn_eq_some_iff group.children n (intToDouble k)).2
    ⟨pre, a, post, hsplit, hname, ?_, ?_⟩
  · rw [hval]; rfl
  · intro b hb hn
    exact absurd hn (hfirst b hb)

/-- Witness for C4: the integer `44` is returned as the `double` of value exactly `44`. -/
theorem findSimpleNumericAttr_integer_widening_lossless_witness :
    (INT_MIN ≤ 44 ∧ (44 : Int) ≤ INT_MAX) ∧
    (∃ x, findSimpleNumericAttr integerPin "capacitance" = some x ∧
      x.toRat? = some ((44 : Int) : ℚ) ∧ x.toInt? = some 44) ∧
    findSimpleNumericAttr integerPin "capacitance" =
      some (Double.finite false (44 * 2 ^ 47) (-47)) :=
  ⟨by decide,
   findSimpleNumericAttr_integer_widening_lossless integerPin "capacitance" [] []
     ⟨"capacitance", Scalar.Integer 44⟩ 44 rfl (by intro b hb; cases hb) rfl rfl
     (by decide) (by decide),
   by decide⟩

/-! ## The buffer handed to the parser -/

/-- On the two segments cell, pin, `resolve_path` is the bind of the two `findChildGroup` calls. -/
theorem resolve_path_cell_pin (root : GroupStatement) (c p : String) :
    resolve_path root [("cell", c), ("pin", p)] =
      (findChildGroup root "cell" c).bind (fun cell => findChildGroup cell "pin" p) := by
  simp only [resolve_path]
  cases findChildGroup root "cell" c with
  | none => rfl
  | some cell =>
    simp only [Option.bind]
    cases findChildGroup cell "pin" p <;> rfl

/-- C6: the cell-then-pin navigation of `main` is `findChildGroup root "cell" c`
bound into `findChildGroup · "pin" p`, which is `resolve_path` on the two
segments. When the library parsed and its root is a `library` group: a missing
cell makes the path `none` and `main` stops with exit code 3 (cell not found);
a first cell named `c` without a direct pin `p` makes the path `none` and `main`
stops with exit code 4; a resolved pin is the one `main` queries. On the
scenario tree the path `(C, A1)` resolves to the pin and `(X, A1)` to `none`. -/
theorem main_navigation_is_resolve_path (liberty_parse : List Char → Option Library)
    (readFile : String → Option (List Char)) (lib_path c p : String) (root : GroupStatement)
    (hparse : parseLibertyFile liberty_parse (readFile lib_path) lib_path = .ok root)
    (hroot : root.group_name = "library") :
    resolve_path root [("cell", c), ("pin", p)] =
      (findChildGroup root "cell" c).bind (fun cell => findChildGroup cell "pin" p) ∧
    (findChildGroup root "cell" c = none →
      resolve_path root [("cell", c), ("pin", p)] = none ∧
      main liberty_parse readFile [lib_path, c, p] =
        .error (3, "[ERROR] Cell not found: " ++ c)) ∧
    (∀ cell, findChildGroup root "cell" c = some cell → findChildGroup cell "pin" p = none →
      resolve_path root [("cell", c), ("pin", p)] = none ∧
      main liberty_parse readFile [lib_path, c, p] =
        .error (4, "[ERROR] Pin not found in cell " ++ c ++ ": " ++ p)) ∧
    (∀ pin, resolve_path root [("cell", c), ("pin", p)] = some pin →
      main liberty_parse readFile [lib_path, c, p] =
        match findSimpleNumericAttr pin "capacitance" with
        | none => .error (5, "[ERROR] Attribute 'capacitance' not found on " ++ c ++ "/" ++ p)
        | some cap =>
            .ok { lib_file := lib_path, cell := c, pin := p, capacitance := cap,
                  rise_capacitance := findSimpleNumericAttr pin "rise_capacitance",
                  fall_capacitance := findSimpleNumericAttr pin "fall_capacitance" }) ∧
    resolve_path scenarioLibrary [("cell", "C"), ("pin", "A1")] = some scenarioPin ∧
    resolve_path scenarioLibrary [("cell", "X"), ("pin", "A1")] = none := by
  have hne : ¬ root.group_name ≠ "library" := fun h => h hroot
  refine ⟨resolve_path_cell_pin root c p, ?_, ?_, ?_, rfl, rfl⟩
  · intro hcell
    refine ⟨by rw [resolve_path_cell_pin, hcell]; rfl, ?_⟩
    simp only [main, List.getD_cons_zero, List.getD_cons_succ, hparse, if_neg hne, hcell]
  · intro cell hcell hpin
    refine ⟨by rw [resolve_path_cell_pin, hcell]; exact hpin, ?_⟩
    simp only [main, List.getD_cons_zero, List.getD_cons_succ, hparse, if_neg hne, hcell, hpin]
  · intro pin hres
    rw [resolve_path_cell_pin] at hres
    cases hcell : findChildGroup root "cell" c with
    | none => rw [hcell] at hres; cases hres
    | some cell =>
      rw [hcell] at hres
      have hpin : findChildGroup cell "pin" p = some pin := hres
      simp only [main, List.getD_cons_zero, List.getD_cons_succ, hparse, if_neg hne, hcell, hpin]

/-- Witness for C6 on the scenario tree: a missing cell, a missing pin, and a resolved pin. -/
theorem main_navigation_is_resolve_path_witness :
    (parseLibertyFile scenarioParse (emptyFiles "scenario.lib") "scenario.lib" =
        .ok scenarioLibrary ∧ scenarioLibrary.group_name = "library") ∧
    main scenarioParse emptyFiles ["scenario.lib", "X", "A1"] =
      .error (3, "[ERROR] Cell not found: X") ∧
    main scenarioParse emptyFiles ["scenario.lib", "C", "B"] =
      .error (4, "[ERROR] Pin not found in cell C: B") ∧
    main scenarioParse emptyFiles ["scenario.lib", "C", "A1"] =
      .ok { lib_file := "scenario.lib", cell := "C", pin := "A1",
            capacitance := Double.finite false 5629499534213120 (-52),
            rise_capacitance := some (Double.finite false 6305039478318694 (-52)),
            fall_capacitance := none } :=
  ⟨⟨rfl, rfl⟩,
   ((main_navigation_is_resolve_path scenarioParse emptyFiles "scenario.lib" "X" "A1"
      scenarioLibrary rfl rfl).2.1 rfl).2,
   ((main_navigation_is_resolve_path scenarioParse emptyFiles "scenario.lib" "C" "B"
      scenarioLibrary rfl rfl).2.2.1 scenarioCell rfl rfl).2,
   (main_navigation_is_resolve_path scenarioParse emptyFiles "scenario.lib" "C" "A1"
      scenarioLibrary rfl rfl).2.2.2.1 scenarioPin rfl⟩

/-! ## The parser of section 4.2 accepts what its grammar derives -/

end Liberty
